import Mathlib

/-!
Verification of the dataset attribute-name transcoding module of
`src/components/script/dom/htmlelement.rs` (the `data-*` attribute section):
the ASCII classifiers, the property-name encoder `to_snake_case`, the
attribute-name decoder `to_camel_case`, and the name-validation guard at the
top of `set_custom_attr`.

Strings are modelled as `List Char`; each Rust function becomes a Lean
function with the same structure, and the character loops become structural
recursions.
-/

namespace Servo

/-- `static DATA_PREFIX: &str = "data-";`, as a character list. -/
def dataPrefixChars : List Char := ['d', 'a', 't', 'a', '-']

/-- `static DATA_HYPHEN_SEPARATOR: char = '\x2d';` -/
def dataHyphenSeparator : Char := '\x2d'

/-- `fn is_ascii_uppercase(c: char) -> bool { 'A' <= c && c <= 'Z' }` -/
def is_ascii_uppercase (c : Char) : Bool := 'A' ≤ c && c ≤ 'Z'

/-- `fn is_ascii_lowercase(c: char) -> bool { 'a' <= c && c <= 'w' }`
(note the narrowed upper bound `'w'` in the source). -/
def is_ascii_lowercase (c : Char) : Bool := 'a' ≤ c && c ≤ 'w'

/-- Rust `char::to_ascii_lowercase`: on an ASCII uppercase letter, add 32
to the code point; otherwise return the character unchanged. -/
def toAsciiLower (c : Char) : Char :=
  if 'A' ≤ c ∧ c ≤ 'Z' then Char.ofNat (c.toNat + 32) else c

/-- Rust `char::to_ascii_uppercase`: on an ASCII lowercase letter, subtract
32 from the code point; otherwise return the character unchanged. -/
def toAsciiUpper (c : Char) : Char :=
  if 'a' ≤ c ∧ c ≤ 'z' then Char.ofNat (c.toNat - 32) else c

/-- The character loop of `to_snake_case`: each ASCII uppercase character is
emitted as a hyphen followed by its lowercased form, every other character
is emitted unchanged. -/
def snakeLoop : List Char → List Char
  | [] => []
  | ch :: rest =>
    if is_ascii_uppercase ch then
      dataHyphenSeparator :: toAsciiLower ch :: snakeLoop rest
    else
      ch :: snakeLoop rest

/-- `fn to_snake_case(name: DOMString) -> DOMString`: prepend `DATA_PREFIX`
and run the character loop. -/
def to_snake_case (name : List Char) : List Char :=
  dataPrefixChars ++ snakeLoop name

/-- The `while let` loop of `to_camel_case`: a hyphen followed by a character
in the narrowed lowercase range is replaced by that character uppercased
(both consumed); a hyphen followed by any other character emits both
unchanged; a trailing hyphen is emitted unchanged; any other character is
emitted unchanged. -/
def camelLoop : List Char → List Char
  | [] => []
  | curr :: rest =>
    if curr = dataHyphenSeparator then
      match rest with
      | [] => [curr]
      | next :: rest2 =>
        if is_ascii_lowercase next then
          toAsciiUpper next :: camelLoop rest2
        else
          curr :: next :: camelLoop rest2
    else
      curr :: camelLoop rest

/-- `fn to_camel_case(name: &str) -> Option<DOMString>`: reject inputs not
starting with `data-`; strip the five prefix characters; reject a remainder
containing any ASCII uppercase character; otherwise run the loop. -/
def to_camel_case (name : List Char) : Option (List Char) :=
  if dataPrefixChars.isPrefixOf name then
    let rest := name.drop 5
    if rest.any is_ascii_uppercase then
      none
    else
      some (camelLoop rest)
  else
    none

/-- The error type surfaced by `set_custom_attr` (`Error::Syntax`). -/
inductive DomError : Type
  | Syntax
deriving DecidableEq

/-- The malformed-name test at the top of `set_custom_attr`:
`name.chars().skip_while(|&ch| ch != '\u{2d}').nth(1).map_or(false, |ch| ch >= 'a' && ch <= 'z')`. -/
def customAttrNameErrors (name : List Char) : Bool :=
  match (name.dropWhile (fun ch => ch != '\x2d')).get? 1 with
  | some ch => 'a' ≤ ch && ch ≤ 'z'
  | none => false

/-- `set_custom_attr`, restricted to its name-validation outcome: the guard
returns `Err(Error::Syntax)` exactly when `customAttrNameErrors` holds,
otherwise the attribute write proceeds. -/
def set_custom_attr_check (name : List Char) : Except DomError Unit :=
  if customAttrNameErrors name then Except.error DomError.Syntax else Except.ok ()

/-! ### Derived predicates and spec-side renderings used by the claims -/

/-- No hyphen in the list is immediately followed by a character of the
narrowed lowercase range (the pairs the decoder loop rewrites). -/
def hyphenNarrowFree : List Char → Bool
  | [] => true
  | [_] => true
  | a :: b :: rest =>
    !(a = dataHyphenSeparator && is_ascii_lowercase b) && hyphenNarrowFree (b :: rest)

/-- An ASCII letter in the full sense: `'a'..='z'` or `'A'..='Z'`. -/
def isAsciiLetter (c : Char) : Bool :=
  ('a' ≤ c && c ≤ 'z') || ('A' ≤ c && c ≤ 'Z')

/-- No hyphen in the list is immediately followed by an ASCII letter. -/
def hyphenLetterFree : List Char → Bool
  | [] => true
  | [_] => true
  | a :: b :: rest =>
    !(a = dataHyphenSeparator && isAsciiLetter b) && hyphenLetterFree (b :: rest)

/-- The list contains no uppercase letter in the range `'X'..='Z'` (the
uppercase letters whose lowercased forms fall outside the decoder's narrowed
lowercase range). -/
def noHighUpper (s : List Char) : Bool :=
  s.all (fun c => !('X' ≤ c && c ≤ 'Z'))

/-- The character after the first hyphen, if present, is none of `'x'`,
`'y'`, `'z'` (the lowercase letters outside the decoder's narrowed range). -/
def noXyzAfterHyphen (name : List Char) : Bool :=
  match (name.dropWhile (fun ch => ch != '\x2d')).get? 1 with
  | some c => !(c = 'x' || c = 'y' || c = 'z')
  | none => true

/-- The decoder pass exactly as the spec words it, in code points: a hyphen
immediately followed by a character in the narrowed lowercase range
`'a'..='w'` (code points 97..119) is replaced by that character's ASCII
uppercase equivalent (code point minus 32), a hyphen followed by any other
character leaves both characters unchanged, a trailing hyphen is emitted
unchanged, and all non-hyphen characters are emitted unchanged. -/
def decodePassSpec : List Char → List Char
  | [] => []
  | c :: rest =>
    if c = '\x2d' then
      match rest with
      | [] => [c]
      | d :: rest2 =>
        if 97 ≤ d.toNat ∧ d.toNat ≤ 119 then
          Char.ofNat (d.toNat - 32) :: decodePassSpec rest2
        else
          c :: d :: decodePassSpec rest2
    else
      c :: decodePassSpec rest

/-- The encoder's character-by-character image as the spec words it: each
character with code point in 65..90 (`'A'..='Z'`) becomes a hyphen followed
by its lowercase equivalent (code point plus 32); every other character is
emitted unchanged. -/
def encodeImageSpec (name : List Char) : List Char :=
  name.flatMap fun c =>
    if 65 ≤ c.toNat ∧ c.toNat ≤ 90 then [ '\x2d', Char.ofNat (c.toNat + 32)] else [c]

/-! ### Basic character-arithmetic lemmas -/

theorem char_le_iff_toNat (a b : Char) : a ≤ b ↔ a.toNat ≤ b.toNat := by
  rw [Char.le_def, UInt32.le_def]
  exact BitVec.le_def

theorem char_eq_iff_toNat (a b : Char) : a = b ↔ a.toNat = b.toNat := by
  constructor
  · intro h; rw [h]
  · intro h; exact Char.ext (UInt32.ext h)

theorem char_toNat_ofNat (n : Nat) (h : n < 55296) : (Char.ofNat n).toNat = n := by
  rw [Char.ofNat, dif_pos (Or.inl h)]
  simp [Char.toNat, Char.ofNatAux, UInt32.toNat]

theorem is_ascii_uppercase_iff (c : Char) :
    is_ascii_uppercase c = true ↔ 65 ≤ c.toNat ∧ c.toNat ≤ 90 := by
  simp only [is_ascii_uppercase, Bool.and_eq_true, decide_eq_true_eq,
    char_le_iff_toNat]
  exact Iff.rfl

theorem is_ascii_lowercase_iff (c : Char) :
    is_ascii_lowercase c = true ↔ 97 ≤ c.toNat ∧ c.toNat ≤ 119 := by
  simp only [is_ascii_lowercase, Bool.and_eq_true, decide_eq_true_eq,
    char_le_iff_toNat]
  exact Iff.rfl

/-! ### Lemmas about the encoder loop -/

theorem snakeLoop_eq_self (s : List Char) (h : s.any is_ascii_uppercase = false) :
    snakeLoop s = s := by
  induction s with
  | nil => rfl
  | cons ch rest ih =>
    simp only [List.any_cons, Bool.or_eq_false_iff] at h
    rw [snakeLoop, if_neg (by simp [h.1]), ih h.2]

theorem upper_not_upper_toAsciiLower (ch : Char) (h : is_ascii_uppercase ch = true) :
    is_ascii_uppercase (toAsciiLower ch) = false := by
  rw [is_ascii_uppercase_iff] at h
  have hrange : (toAsciiLower ch).toNat = ch.toNat + 32 := by
    rw [toAsciiLower, if_pos]
    · exact char_toNat_ofNat _ (by omega)
    · constructor <;> rw [char_le_iff_toNat] <;> simp <;> omega
  simp only [Bool.not_eq_true] at *
  rw [Bool.eq_false_iff]
  intro hcon
  rw [is_ascii_uppercase_iff] at hcon
  omega

theorem snakeLoop_no_upper (s : List Char) :
    (snakeLoop s).any is_ascii_uppercase = false := by
  induction s with
  | nil => rfl
  | cons ch rest ih =>
    rw [snakeLoop]
    by_cases h : is_ascii_uppercase ch = true
    · rw [if_pos h]
      simp only [List.any_cons, Bool.or_eq_false_iff]
      refine ⟨by decide, upper_not_upper_toAsciiLower ch h, ih⟩
    · rw [if_neg h]
      simp only [List.any_cons, Bool.or_eq_false_iff]
      exact ⟨Bool.eq_false_iff.mpr h, ih⟩

/-- Composing the decoder with the encoder always passes the decoder's two
rejection checks and reduces to the two character loops composed. -/
theorem decode_encode_eq (s : List Char) :
    to_camel_case (to_snake_case s) = some (camelLoop (snakeLoop s)) := by
  rw [to_snake_case, to_camel_case,
    if_pos (List.isPrefixOf_iff_prefix.mpr (List.prefix_append _ _))]
  have hdrop : (dataPrefixChars ++ snakeLoop s).drop 5 = snakeLoop s :=
    List.drop_left dataPrefixChars (snakeLoop s)
  simp only [hdrop, snakeLoop_no_upper s, Bool.false_eq_true, if_false]

/-! ### Lemmas about the decoder loop -/

theorem toAsciiUpper_toNat_of_narrow (next : Char) (h : is_ascii_lowercase next = true) :
    (toAsciiUpper next).toNat = next.toNat - 32 := by
  rw [is_ascii_lowercase_iff] at h
  rw [toAsciiUpper, if_pos]
  · exact char_toNat_ofNat _ (by omega)
  · constructor <;> rw [char_le_iff_toNat] <;> simp <;> omega

theorem toAsciiUpper_is_upper_of_narrow (next : Char) (h : is_ascii_lowercase next = true) :
    is_ascii_uppercase (toAsciiUpper next) = true := by
  have h2 := toAsciiUpper_toNat_of_narrow next h
  rw [is_ascii_lowercase_iff] at h
  rw [is_ascii_uppercase_iff, h2]
  omega

theorem toAsciiLower_toAsciiUpper_of_narrow (next : Char)
    (h : is_ascii_lowercase next = true) :
    toAsciiLower (toAsciiUpper next) = next := by
  have h2 := toAsciiUpper_toNat_of_narrow next h
  rw [is_ascii_lowercase_iff] at h
  rw [char_eq_iff_toNat, toAsciiLower, if_pos]
  · rw [char_toNat_ofNat _ (by omega), h2]
    omega
  · constructor <;> rw [char_le_iff_toNat] <;> simp <;> omega

theorem toAsciiUpper_toAsciiLower_of_upper (ch : Char)
    (h : is_ascii_uppercase ch = true) :
    toAsciiUpper (toAsciiLower ch) = ch := by
  rw [is_ascii_uppercase_iff] at h
  have h2 : (toAsciiLower ch).toNat = ch.toNat + 32 := by
    rw [toAsciiLower, if_pos]
    · exact char_toNat_ofNat _ (by omega)
    · constructor <;> rw [char_le_iff_toNat] <;> simp <;> omega
  rw [char_eq_iff_toNat, toAsciiUpper, if_pos]
  · rw [char_toNat_ofNat _ (by omega), h2]
    omega
  · constructor <;> rw [char_le_iff_toNat] <;> simp <;> omega

theorem toAsciiLower_is_narrow_of_mid_upper (ch : Char)
    (hu : is_ascii_uppercase ch = true) (hw : ch.toNat ≤ 87) :
    is_ascii_lowercase (toAsciiLower ch) = true := by
  rw [is_ascii_uppercase_iff] at hu
  have h2 : (toAsciiLower ch).toNat = ch.toNat + 32 := by
    rw [toAsciiLower, if_pos]
    · exact char_toNat_ofNat _ (by omega)
    · constructor <;> rw [char_le_iff_toNat] <;> simp <;> omega
  rw [is_ascii_lowercase_iff, h2]
  omega


theorem hyphenNarrowFree_tail (a : Char) (l : List Char)
    (h : hyphenNarrowFree (a :: l) = true) : hyphenNarrowFree l = true := by
  cases l with
  | nil => rfl
  | cons b rest =>
    rw [hyphenNarrowFree, Bool.and_eq_true] at h
    exact h.2

theorem camelLoop_eq_self (s : List Char) (h : hyphenNarrowFree s = true) :
    camelLoop s = s := by
  induction s using camelLoop.induct with
  | case1 => rfl
  | case2 => rfl
  | case3 next rest2 hlow ih =>
    exfalso
    rw [hyphenNarrowFree, Bool.and_eq_true, Bool.not_eq_true', Bool.and_eq_false_iff] at h
    rcases h.1 with h1 | h1
    · simp at h1
    · rw [hlow] at h1
      exact absurd h1 (by simp)
  | case4 next rest2 hlow ih =>
    rw [camelLoop.eq_3, if_pos rfl]
    simp only [Bool.not_eq_true] at hlow
    rw [if_neg (by simp [hlow])]
    have h2 := hyphenNarrowFree_tail _ _ (hyphenNarrowFree_tail _ _ h)
    rw [ih h2]
  | case5 curr rest hne ih =>
    cases rest with
    | nil => rw [camelLoop.eq_2, if_neg hne, camelLoop.eq_1]
    | cons b l =>
      rw [camelLoop.eq_3, if_neg hne, ih (hyphenNarrowFree_tail _ _ h)]

theorem camelLoop_append_left (u v : List Char)
    (h : ∀ c ∈ u, c ≠ dataHyphenSeparator) :
    camelLoop (u ++ v) = u ++ camelLoop v := by
  induction u with
  | nil => rfl
  | cons a u ih =>
    have ha : a ≠ dataHyphenSeparator := h a (List.mem_cons_self a u)
    have hrest : ∀ c ∈ u, c ≠ dataHyphenSeparator := fun c hc => h c (List.mem_cons_of_mem a hc)
    cases hu : u ++ v with
    | nil =>
      rcases List.append_eq_nil.mp hu with ⟨h1, h2⟩
      subst h1
      subst h2
      simp only [List.append_nil, camelLoop.eq_2, if_neg ha, camelLoop.eq_1]
    | cons b l =>
      rw [List.cons_append, hu, camelLoop.eq_3, if_neg ha, ← hu, ih hrest]
      rfl

/-- Re-encoding the output of the decoder loop restores the input, provided
the input contains no ASCII uppercase character (which the decoder has
already checked). -/
theorem snakeLoop_camelLoop_id (s : List Char) (h : s.any is_ascii_uppercase = false) :
    snakeLoop (camelLoop s) = s := by
  induction s using camelLoop.induct with
  | case1 => rfl
  | case2 => decide
  | case3 next rest2 hlow ih =>
    rw [camelLoop.eq_3, if_pos rfl, if_pos hlow, snakeLoop,
      if_pos (toAsciiUpper_is_upper_of_narrow next hlow),
      toAsciiLower_toAsciiUpper_of_narrow next hlow]
    have h2 : rest2.any is_ascii_uppercase = false := by
      simp only [List.any_cons, Bool.or_eq_false_iff] at h
      exact h.2.2
    rw [ih h2]
  | case4 next rest2 hlow ih =>
    simp only [List.any_cons, Bool.or_eq_false_iff] at h
    rw [camelLoop.eq_3, if_pos rfl, if_neg hlow, snakeLoop, if_neg (by decide), snakeLoop,
      if_neg (by simp [h.2.1]), ih h.2.2]
  | case5 curr rest hne ih =>
    simp only [List.any_cons, Bool.or_eq_false_iff] at h
    have hloop : camelLoop (curr :: rest) = curr :: camelLoop rest := by
      cases rest with
      | nil => rw [camelLoop.eq_2, if_neg hne, camelLoop.eq_1]
      | cons b l => rw [camelLoop.eq_3, if_neg hne]
    rw [hloop, snakeLoop, if_neg (by simp [h.1]), ih h.2]

theorem camelLoop_cons_of_ne (c : Char) (l : List Char) (h : c ≠ dataHyphenSeparator) :
    camelLoop (c :: l) = c :: camelLoop l := by
  cases l with
  | nil => rw [camelLoop.eq_2, if_neg h, camelLoop.eq_1]
  | cons b t => rw [camelLoop.eq_3, if_neg h]

/-! ### Conditions under which encode-then-decode is the identity -/




theorem hyphenLetterFree_tail (a : Char) (l : List Char)
    (h : hyphenLetterFree (a :: l) = true) : hyphenLetterFree l = true := by
  cases l with
  | nil => rfl
  | cons b rest =>
    rw [hyphenLetterFree, Bool.and_eq_true] at h
    exact h.2

theorem noHighUpper_tail (a : Char) (l : List Char)
    (h : noHighUpper (a :: l) = true) : noHighUpper l = true := by
  rw [noHighUpper, List.all_cons, Bool.and_eq_true] at h
  exact h.2

theorem noHighUpper_head (a : Char) (l : List Char)
    (h : noHighUpper (a :: l) = true) : ¬(88 ≤ a.toNat ∧ a.toNat ≤ 90) := by
  intro hcon
  have hx : ('X' ≤ a && a ≤ 'Z') = true := by
    rw [Bool.and_eq_true]
    have hX : ('X' : Char).toNat = 88 := rfl
    have hZ : ('Z' : Char).toNat = 90 := rfl
    constructor <;> rw [decide_eq_true_eq, char_le_iff_toNat] <;> omega
  rw [noHighUpper, List.all_cons, hx] at h
  simp at h

theorem isAsciiLetter_iff (c : Char) :
    isAsciiLetter c = true ↔
      (97 ≤ c.toNat ∧ c.toNat ≤ 122) ∨ (65 ≤ c.toNat ∧ c.toNat ≤ 90) := by
  simp only [isAsciiLetter, Bool.or_eq_true, Bool.and_eq_true, decide_eq_true_eq,
    char_le_iff_toNat]
  exact Iff.rfl

theorem not_letter_not_upper (c : Char) (h : isAsciiLetter c = false) :
    is_ascii_uppercase c = false := by
  rw [Bool.eq_false_iff] at h ⊢
  intro hcon
  exact h ((isAsciiLetter_iff c).mpr (Or.inr ((is_ascii_uppercase_iff c).mp hcon)))

theorem not_letter_not_narrow (c : Char) (h : isAsciiLetter c = false) :
    is_ascii_lowercase c = false := by
  rw [Bool.eq_false_iff] at h ⊢
  intro hcon
  have h2 := (is_ascii_lowercase_iff c).mp hcon
  exact h ((isAsciiLetter_iff c).mpr (Or.inl ⟨h2.1, by omega⟩))

theorem camelLoop_snakeLoop_id_aux (n : Nat) :
    ∀ p : List Char, p.length ≤ n → hyphenLetterFree p = true → noHighUpper p = true →
      camelLoop (snakeLoop p) = p := by
  induction n with
  | zero =>
    intro p hlen _ _
    rw [List.eq_nil_of_length_eq_zero (Nat.le_zero.mp hlen)]
    rfl
  | succ n ih =>
    intro p hlen hfree hhigh
    match p with
    | [] => rfl
    | ch :: rest =>
      by_cases hup : is_ascii_uppercase ch = true
      · have hx : ch.toNat ≤ 87 := by
          have h1 := (is_ascii_uppercase_iff ch).mp hup
          have h2 := noHighUpper_head ch rest hhigh
          omega
        rw [snakeLoop, if_pos hup, camelLoop.eq_3, if_pos rfl,
          if_pos (toAsciiLower_is_narrow_of_mid_upper ch hup hx),
          toAsciiUpper_toAsciiLower_of_upper ch hup,
          ih rest (by simp only [List.length_cons] at hlen; omega)
            (hyphenLetterFree_tail ch rest hfree) (noHighUpper_tail ch rest hhigh)]
      · rw [snakeLoop, if_neg hup]
        by_cases hsep : ch = dataHyphenSeparator
        · subst hsep
          match rest with
          | [] => decide
          | c2 :: rest2 =>
            have hc2 : isAsciiLetter c2 = false := by
              rw [hyphenLetterFree, Bool.and_eq_true, Bool.not_eq_true',
                Bool.and_eq_false_iff] at hfree
              rcases hfree.1 with h1 | h1
              · exact absurd h1 (by simp)
              · exact h1
            rw [snakeLoop, if_neg (by simp [not_letter_not_upper c2 hc2]),
              camelLoop.eq_3, if_pos rfl, if_neg (by simp [not_letter_not_narrow c2 hc2]),
              ih rest2 (by simp only [List.length_cons] at hlen; omega)
                (hyphenLetterFree_tail _ _ (hyphenLetterFree_tail _ _ hfree))
                (noHighUpper_tail _ _ (noHighUpper_tail _ _ hhigh))]
        · rw [camelLoop_cons_of_ne ch _ hsep,
            ih rest (by simp only [List.length_cons] at hlen; omega)
              (hyphenLetterFree_tail ch rest hfree) (noHighUpper_tail ch rest hhigh)]

theorem camelLoop_snakeLoop_id (p : List Char)
    (hfree : hyphenLetterFree p = true) (hhigh : noHighUpper p = true) :
    camelLoop (snakeLoop p) = p :=
  camelLoop_snakeLoop_id_aux p.length p le_rfl hfree hhigh

/-! ### The validation guard of `set_custom_attr` -/

theorem set_custom_attr_check_error_iff (name : List Char) :
    set_custom_attr_check name = Except.error DomError.Syntax ↔
      customAttrNameErrors name = true := by
  rw [set_custom_attr_check]
  by_cases h : customAttrNameErrors name = true
  · simp [h]
  · simp [h]

theorem dropWhile_head_false {α : Type} (p : α → Bool) (l : List α) (b : α) (t : List α)
    (h : l.dropWhile p = b :: t) : p b = false := by
  induction l with
  | nil => simp [List.dropWhile] at h
  | cons a l ih =>
    rw [List.dropWhile_cons] at h
    by_cases hp : p a = true
    · rw [if_pos hp] at h
      exact ih h
    · rw [if_neg hp] at h
      cases h
      exact Bool.eq_false_iff.mpr hp

/-- Decomposition of a list at its first hyphen, read off the `dropWhile` in
the guard. -/
theorem first_hyphen_decomp (name : List Char) (c : Char) (v : List Char)
    (hv : name.dropWhile (fun ch => ch != '\x2d') = '\x2d' :: c :: v) :
    name = name.takeWhile (fun ch => ch != '\x2d') ++ '\x2d' :: c :: v := by
  conv_lhs => rw [← List.takeWhile_append_dropWhile (fun ch => ch != '\x2d') name]
  rw [hv]

theorem dropWhile_shape_of_get (name : List Char) (c : Char)
    (h : (name.dropWhile (fun ch => ch != '\x2d')).get? 1 = some c) :
    ∃ v, name.dropWhile (fun ch => ch != '\x2d') = '\x2d' :: c :: v := by
  cases hd : name.dropWhile (fun ch => ch != '\x2d') with
  | nil => rw [hd] at h; simp [List.get?] at h
  | cons b t =>
    cases t with
    | nil => rw [hd] at h; simp [List.get?] at h
    | cons b2 t2 =>
      rw [hd] at h
      simp only [List.get?] at h
      cases h
      have hb := dropWhile_head_false _ name b _ hd
      have hb2 : b = '\x2d' := by simpa using hb
      subst hb2
      exact ⟨t2, rfl⟩

theorem customAttrNameErrors_iff (name : List Char) :
    customAttrNameErrors name = true ↔
      ∃ u c v, name = u ++ '\x2d' :: c :: v ∧ '\x2d' ∉ u ∧ 'a' ≤ c ∧ c ≤ 'z' := by
  constructor
  · intro h
    rw [customAttrNameErrors] at h
    cases hget : (name.dropWhile (fun ch => ch != '\x2d')).get? 1 with
    | none => rw [hget] at h; cases h
    | some c =>
      rw [hget] at h
      obtain ⟨v, hv⟩ := dropWhile_shape_of_get name c hget
      refine ⟨name.takeWhile (fun ch => ch != '\x2d'), c, v,
        first_hyphen_decomp name c v hv, ?_, ?_, ?_⟩
      · intro hmem
        have := List.mem_takeWhile_imp hmem
        simp [bne] at this
      · have := (Bool.and_eq_true _ _).mp h
        exact of_decide_eq_true this.1
      · have := (Bool.and_eq_true _ _).mp h
        exact of_decide_eq_true this.2
  · rintro ⟨u, c, v, rfl, hu, hc1, hc2⟩
    have hall : ∀ x ∈ u, (x != '\x2d') = true := by
      intro x hx
      have hne : x ≠ '\x2d' := fun hcon => hu (hcon ▸ hx)
      simpa using hne
    rw [customAttrNameErrors, List.dropWhile_append,
      if_pos (by simp [List.dropWhile_eq_nil_iff.mpr hall]),
      List.dropWhile_cons, if_neg (by simp)]
    simp only [List.get?, Bool.and_eq_true, decide_eq_true_eq]
    exact ⟨hc1, hc2⟩

/-! ### Spec-side renderings of the two passes (for the refinement claims) -/


theorem camelLoop_eq_decodePassSpec (s : List Char) : camelLoop s = decodePassSpec s := by
  have hsep : dataHyphenSeparator = '\x2d' := rfl
  induction s using camelLoop.induct with
  | case1 => rfl
  | case2 => rfl
  | case3 next rest2 hlow ih =>
    have hn := (is_ascii_lowercase_iff next).mp hlow
    have hup : toAsciiUpper next = Char.ofNat (next.toNat - 32) := by
      rw [toAsciiUpper, if_pos]
      constructor <;> rw [char_le_iff_toNat] <;> simp <;> omega
    rw [camelLoop.eq_3, if_pos rfl, if_pos hlow, decodePassSpec.eq_3, if_pos hsep,
      if_pos hn, ih, hup]
  | case4 next rest2 hlow ih =>
    rw [camelLoop.eq_3, if_pos rfl, if_neg hlow, decodePassSpec.eq_3, if_pos hsep,
      if_neg (fun hcon => hlow ((is_ascii_lowercase_iff next).mpr hcon)), ih]
  | case5 curr rest hne ih =>
    have hne2 : ¬curr = '\x2d' := fun hcon => hne (hcon.trans hsep.symm)
    cases rest with
    | nil =>
      rw [camelLoop.eq_2, if_neg hne, decodePassSpec.eq_2, if_neg hne2, camelLoop.eq_1,
        decodePassSpec.eq_1]
    | cons b l => rw [camelLoop.eq_3, if_neg hne, decodePassSpec.eq_3, if_neg hne2, ih]

theorem snakeLoop_eq_encodeImageSpec (s : List Char) : snakeLoop s = encodeImageSpec s := by
  induction s with
  | nil => rfl
  | cons ch rest ih =>
    rw [snakeLoop, encodeImageSpec, List.flatMap_cons]
    by_cases h : is_ascii_uppercase ch = true
    · have hn := (is_ascii_uppercase_iff ch).mp h
      have hlo : toAsciiLower ch = Char.ofNat (ch.toNat + 32) := by
        rw [toAsciiLower, if_pos]
        constructor <;> rw [char_le_iff_toNat] <;> simp <;> omega
      rw [if_pos h, if_pos hn, ih, encodeImageSpec, List.cons_append, List.cons_append,
        List.nil_append, hlo]
      rfl
    · rw [if_neg h, if_neg (fun hcon => h ((is_ascii_uppercase_iff ch).mpr hcon)), ih,
        encodeImageSpec, List.cons_append, List.nil_append]

/-! ### The guard compared with the round trip -/


theorem hyphenNarrowFree_of_not_mem (s : List Char) (h : dataHyphenSeparator ∉ s) :
    hyphenNarrowFree s = true := by
  induction s with
  | nil => rfl
  | cons a l ih =>
    have ha : a ≠ dataHyphenSeparator := fun hcon => h (hcon ▸ List.mem_cons_self a l)
    have hl : dataHyphenSeparator ∉ l := fun hm => h (List.mem_cons_of_mem a hm)
    cases l with
    | nil => rfl
    | cons b t =>
      rw [hyphenNarrowFree, Bool.and_eq_true]
      exact ⟨by simp [ha], ih hl⟩

theorem customAttrNameErrors_false_of_not_mem (name : List Char)
    (h : dataHyphenSeparator ∉ name) : customAttrNameErrors name = false := by
  rw [show dataHyphenSeparator = '\x2d' from rfl] at h
  have hnil : name.dropWhile (fun ch => ch != '\x2d') = [] := by
    rw [List.dropWhile_eq_nil_iff]
    intro x hx
    have hne : x ≠ '\x2d' := fun hcon => h (hcon ▸ hx)
    simpa using hne
  rw [customAttrNameErrors, hnil]
  rfl

/-- Core comparison for C3: for names with at most one hyphen whose
post-hyphen character is not `'x'`, `'y'` or `'z'`, the guard fires exactly
when the decoder loop would not leave the name unchanged. -/
theorem errors_iff_camelLoop_ne (name : List Char)
    (hcount : name.count dataHyphenSeparator ≤ 1)
    (hxyz : noXyzAfterHyphen name = true) :
    customAttrNameErrors name = true ↔ camelLoop name ≠ name := by
  by_cases hmem : dataHyphenSeparator ∈ name
  · cases hd : name.dropWhile (fun ch => ch != '\x2d') with
    | nil =>
      exfalso
      rw [List.dropWhile_eq_nil_iff] at hd
      have := hd dataHyphenSeparator hmem
      simp only [bne_iff_ne, ne_eq] at this
      exact this rfl
    | cons b d =>
      have hb : b = '\x2d' := by simpa using dropWhile_head_false _ name b d hd
      subst hb
      have hdecomp : name = name.takeWhile (fun ch => ch != '\x2d') ++ '\x2d' :: d := by
        conv_lhs => rw [← List.takeWhile_append_dropWhile (fun ch => ch != '\x2d') name, hd]
      obtain ⟨u, humem, hdecomp⟩ :
          ∃ u, (∀ c ∈ u, c ≠ dataHyphenSeparator) ∧ name = u ++ '\x2d' :: d :=
        ⟨name.takeWhile (fun ch => ch != '\x2d'),
         fun c hc => by simpa using List.mem_takeWhile_imp hc, hdecomp⟩
      have hdcount : dataHyphenSeparator ∉ d := by
        rw [hdecomp, List.count_append, List.count_cons,
          if_pos (by decide : (('\x2d' : Char) == dataHyphenSeparator) = true)] at hcount
        rw [← List.count_eq_zero (a := dataHyphenSeparator) (l := d)]
        omega
      cases d with
      | nil =>
        have herr : customAttrNameErrors name = false := by
          rw [customAttrNameErrors, hd]
          rfl
        have hcl : camelLoop name = name := by
          rw [hdecomp, camelLoop_append_left u _ humem, camelLoop.eq_2,
            if_pos (show ('\x2d' : Char) = dataHyphenSeparator from rfl)]
        exact iff_of_false (by rw [herr]; simp) (fun hcon => hcon hcl)
      | cons c v =>
        have herr : customAttrNameErrors name = ('a' ≤ c && c ≤ 'z') := by
          rw [customAttrNameErrors, hd]
          rfl
        have hvmem : dataHyphenSeparator ∉ v := fun hm => hdcount (List.mem_cons_of_mem c hm)
        have hclv : camelLoop v = v := camelLoop_eq_self v (hyphenNarrowFree_of_not_mem v hvmem)
        by_cases hnarrow : is_ascii_lowercase c = true
        · have herr2 : customAttrNameErrors name = true := by
            have hc := (is_ascii_lowercase_iff c).mp hnarrow
            have ha : ('a' : Char).toNat = 97 := rfl
            have hz : ('z' : Char).toNat = 122 := rfl
            rw [herr, Bool.and_eq_true]
            constructor <;> rw [decide_eq_true_eq, char_le_iff_toNat] <;> omega
          have hne : camelLoop name ≠ name := by
            rw [hdecomp, camelLoop_append_left u _ humem, camelLoop.eq_3,
              if_pos (show ('\x2d' : Char) = dataHyphenSeparator from rfl),
              if_pos hnarrow, hclv]
            intro hcon
            have htail := List.append_cancel_left hcon
            have hlen := congrArg List.length htail
            simp only [List.length_cons] at hlen
            omega
          exact iff_of_true herr2 hne
        · have herr3 : customAttrNameErrors name = false := by
            rw [herr, Bool.eq_false_iff]
            intro htrue
            rw [Bool.and_eq_true] at htrue
            have h1 : 97 ≤ c.toNat := by
              have := of_decide_eq_true htrue.1
              rwa [char_le_iff_toNat] at this
            have h2 : c.toNat ≤ 122 := by
              have := of_decide_eq_true htrue.2
              rwa [char_le_iff_toNat] at this
            have h3 : ¬(97 ≤ c.toNat ∧ c.toNat ≤ 119) :=
              fun hcon => hnarrow ((is_ascii_lowercase_iff c).mpr hcon)
            have hx : c.toNat ≠ 120 := fun hcon => by
              rw [noXyzAfterHyphen, hd] at hxyz
              have : c = 'x' := (char_eq_iff_toNat c 'x').mpr hcon
              subst this
              simp at hxyz
            have hy : c.toNat ≠ 121 := fun hcon => by
              rw [noXyzAfterHyphen, hd] at hxyz
              have : c = 'y' := (char_eq_iff_toNat c 'y').mpr hcon
              subst this
              simp at hxyz
            have hz : c.toNat ≠ 122 := fun hcon => by
              rw [noXyzAfterHyphen, hd] at hxyz
              have : c = 'z' := (char_eq_iff_toNat c 'z').mpr hcon
              subst this
              simp at hxyz
            omega
          have hcl2 : camelLoop name = name := by
            rw [hdecomp, camelLoop_append_left u _ humem, camelLoop.eq_3,
              if_pos (show ('\x2d' : Char) = dataHyphenSeparator from rfl),
              if_neg hnarrow, hclv]
          exact iff_of_false (by rw [herr3]; simp) (fun hcon => hcon hcl2)
  · exact iff_of_false
      (by rw [customAttrNameErrors_false_of_not_mem name hmem]; simp)
      (fun hcon => hcon (camelLoop_eq_self name (hyphenNarrowFree_of_not_mem name hmem)))

/-! ### The claims -/

/-- C1 is false as stated: the string `"-a"` contains no ASCII uppercase
letter, yet decoding its encoded form yields `"A"`, not the original
string. -/
theorem claim_C1_counterexample :
    (['\x2d', 'a'].any is_ascii_uppercase = false) ∧
    to_camel_case (to_snake_case ['\x2d', 'a']) = some ['A'] ∧
    some ['A'] ≠ some (['\x2d', 'a'] : List Char) := by
  refine ⟨by decide, by decide, by decide⟩

/-- C1 (amended): for every string that contains no ASCII uppercase letter
and also no hyphen immediately followed by a character in the narrowed range
`'a'..='w'`, decoding the encoded form returns the original string. -/
theorem claim_C1_round_trip (s : List Char)
    (hup : s.any is_ascii_uppercase = false)
    (hfree : hyphenNarrowFree s = true) :
    to_camel_case (to_snake_case s) = some s := by
  rw [decode_encode_eq, snakeLoop_eq_self s hup, camelLoop_eq_self s hfree]

/-- Witness for the amended C1 at the concrete input `"foo-!"`. -/
theorem claim_C1_witness :
    (['f', 'o', 'o', '\x2d', '!'].any is_ascii_uppercase = false) ∧
    hyphenNarrowFree ['f', 'o', 'o', '\x2d', '!'] = true ∧
    to_camel_case (to_snake_case ['f', 'o', 'o', '\x2d', '!']) =
      some ['f', 'o', 'o', '\x2d', '!'] :=
  ⟨by decide, by decide, claim_C1_round_trip ['f', 'o', 'o', '\x2d', '!'] (by decide) (by decide)⟩

/-- C2 is false as stated: the property name `"aX"` contains no uppercase
ASCII letter in its encoded form (`"data-a-x"`) and no hyphen at all (hence
no hyphen immediately followed by a lowercase ASCII letter), yet
encode-then-decode returns `"a-x"`, not `"aX"`. -/
theorem claim_C2_counterexample :
    ((to_snake_case ['a', 'X']).any is_ascii_uppercase = false) ∧
    ('\x2d' ∉ (['a', 'X'] : List Char)) ∧
    to_camel_case (to_snake_case ['a', 'X']) = some ['a', '\x2d', 'x'] ∧
    some ['a', '\x2d', 'x'] ≠ some (['a', 'X'] : List Char) := by
  refine ⟨by decide, by decide, by decide, by decide⟩

/-- C2 (amended): encode-then-decode is the identity on every property name
whose encoded form contains no ASCII uppercase letter (always true), that
contains no uppercase letter in `'X'..='Z'`, and in which no hyphen is
immediately followed by an ASCII letter. -/
theorem claim_C2_round_trip (p : List Char)
    (_henc : (to_snake_case p).any is_ascii_uppercase = false)
    (hhigh : noHighUpper p = true)
    (hfree : hyphenLetterFree p = true) :
    to_camel_case (to_snake_case p) = some p := by
  rw [decode_encode_eq, camelLoop_snakeLoop_id p hfree hhigh]

/-- Witness for the amended C2 at the concrete input `"fooBar"`. -/
theorem claim_C2_witness :
    ((to_snake_case ['f', 'o', 'o', 'B', 'a', 'r']).any is_ascii_uppercase = false) ∧
    noHighUpper ['f', 'o', 'o', 'B', 'a', 'r'] = true ∧
    hyphenLetterFree ['f', 'o', 'o', 'B', 'a', 'r'] = true ∧
    to_camel_case (to_snake_case ['f', 'o', 'o', 'B', 'a', 'r']) =
      some ['f', 'o', 'o', 'B', 'a', 'r'] :=
  ⟨by decide, by decide, by decide,
   claim_C2_round_trip ['f', 'o', 'o', 'B', 'a', 'r'] (by decide) (by decide) (by decide)⟩

/-- C3 is false as stated: on the name `"-x"` the guard raises the Syntax
(malformed name) error, although encode-then-decode returns the name
unchanged, so the guard does not fire exactly on round-trip failures. -/
theorem claim_C3_counterexample :
    set_custom_attr_check ['\x2d', 'x'] = Except.error DomError.Syntax ∧
    to_camel_case (to_snake_case ['\x2d', 'x']) = some ['\x2d', 'x'] := by
  refine ⟨rfl, by decide⟩

/-- C3 (amended): for names containing no ASCII uppercase letter, at most
one hyphen, and whose character after the hyphen (if any) is not `'x'`,
`'y'` or `'z'`, the guard raises its error exactly when the name does not
survive the encode-then-decode round trip. -/
theorem claim_C3_guard_iff_round_trip (name : List Char)
    (hup : name.any is_ascii_uppercase = false)
    (hcount : name.count dataHyphenSeparator ≤ 1)
    (hxyz : noXyzAfterHyphen name = true) :
    set_custom_attr_check name = Except.error DomError.Syntax ↔
      to_camel_case (to_snake_case name) ≠ some name := by
  rw [set_custom_attr_check_error_iff, decode_encode_eq, snakeLoop_eq_self name hup,
    errors_iff_camelLoop_ne name hcount hxyz]
  simp

/-- Witness for the amended C3 at the concrete input `"foo-bar"`. -/
theorem claim_C3_witness :
    (['f', 'o', 'o', '\x2d', 'b', 'a', 'r'].any is_ascii_uppercase = false) ∧
    (['f', 'o', 'o', '\x2d', 'b', 'a', 'r'].count dataHyphenSeparator ≤ 1) ∧
    noXyzAfterHyphen ['f', 'o', 'o', '\x2d', 'b', 'a', 'r'] = true ∧
    (set_custom_attr_check ['f', 'o', 'o', '\x2d', 'b', 'a', 'r'] =
        Except.error DomError.Syntax ↔
      to_camel_case (to_snake_case ['f', 'o', 'o', '\x2d', 'b', 'a', 'r']) ≠
        some ['f', 'o', 'o', '\x2d', 'b', 'a', 'r']) :=
  ⟨by decide, by decide, by decide,
   claim_C3_guard_iff_round_trip ['f', 'o', 'o', '\x2d', 'b', 'a', 'r']
     (by decide) (by decide) (by decide)⟩

/-- C4: the guard returns the Syntax (MalformedName) error exactly when the
character immediately following the name's first hyphen is a lowercase
letter in the full range `'a'..='z'`; in particular it rejects `"foo-bar"`
and accepts `"fooBar"` (and accepts any name with no hyphen or with nothing
after its first hyphen, since then no such decomposition exists). -/
theorem claim_C4_guard_iff :
    (∀ name : List Char,
      set_custom_attr_check name = Except.error DomError.Syntax ↔
        ∃ u c v, name = u ++ '\x2d' :: c :: v ∧ '\x2d' ∉ u ∧ 'a' ≤ c ∧ c ≤ 'z') ∧
    set_custom_attr_check ['f', 'o', 'o', '\x2d', 'b', 'a', 'r'] =
      Except.error DomError.Syntax ∧
    set_custom_attr_check ['f', 'o', 'o', 'B', 'a', 'r'] = Except.ok () := by
  refine ⟨fun name => ?_, rfl, rfl⟩
  rw [set_custom_attr_check_error_iff]
  exact customAttrNameErrors_iff name

/-- C5: on every input of the form `"data-"` followed by a remainder with no
ASCII uppercase letter, the decoder returns Some of the single left-to-right
pass described by the spec (hyphen + narrowed-lowercase pair becomes the
uppercase equivalent, any other hyphen pair and a trailing hyphen pass
through unchanged, other characters unchanged); in particular
`decode_attribute_name("data-") = Some("")` and
`decode_attribute_name("data-a-") = Some("a-")`. -/
theorem claim_C5_decoder_pass :
    (∀ rest : List Char, rest.any is_ascii_uppercase = false →
      to_camel_case (dataPrefixChars ++ rest) = some (decodePassSpec rest)) ∧
    to_camel_case ['d', 'a', 't', 'a', '\x2d'] = some [] ∧
    to_camel_case ['d', 'a', 't', 'a', '\x2d', 'a', '\x2d'] = some ['a', '\x2d'] := by
  refine ⟨fun rest hup => ?_, by decide, by decide⟩
  rw [to_camel_case, if_pos (List.isPrefixOf_iff_prefix.mpr (List.prefix_append _ _))]
  have hdrop : (dataPrefixChars ++ rest).drop 5 = rest := List.drop_left dataPrefixChars rest
  simp only [hdrop, hup, Bool.false_eq_true, if_false, camelLoop_eq_decodePassSpec]

/-- Witness for C5 at the concrete remainder `"foo"`. -/
theorem claim_C5_witness :
    (['f', 'o', 'o'].any is_ascii_uppercase = false) ∧
    to_camel_case (dataPrefixChars ++ ['f', 'o', 'o']) = some (decodePassSpec ['f', 'o', 'o']) :=
  ⟨by decide, claim_C5_decoder_pass.1 ['f', 'o', 'o'] (by decide)⟩

/-- C6: the decoder returns None exactly when the input does not start with
the prefix `"data-"` or the remainder after the prefix contains an ASCII
uppercase letter; in particular on `"nodata-foo"` and `"data-Foo"`. -/
theorem claim_C6_decoder_none_iff :
    (∀ name : List Char,
      to_camel_case name = none ↔
        (¬ dataPrefixChars.isPrefixOf name = true ∨
          (name.drop 5).any is_ascii_uppercase = true)) ∧
    to_camel_case ['n', 'o', 'd', 'a', 't', 'a', '\x2d', 'f', 'o', 'o'] = none ∧
    to_camel_case ['d', 'a', 't', 'a', '\x2d', 'F', 'o', 'o'] = none := by
  refine ⟨fun name => ?_, by decide, by decide⟩
  rw [to_camel_case]
  by_cases hp : dataPrefixChars.isPrefixOf name = true
  · rw [if_pos hp]
    by_cases hu : (name.drop 5).any is_ascii_uppercase = true
    · simp [hu, hp]
    · simp [hu, hp]
  · rw [if_neg hp]
    simp [hp]

/-- C7: the encoder is total and equals the prefix `"data-"` followed by the
character-by-character image in which each ASCII uppercase character becomes
a hyphen plus its lowercase equivalent and every other character is emitted
unchanged; in particular `encode_property_name("fooBar") = "data-foo-bar"`. -/
theorem claim_C7_encoder_spec :
    (∀ name : List Char, to_snake_case name = dataPrefixChars ++ encodeImageSpec name) ∧
    to_snake_case ['f', 'o', 'o', 'B', 'a', 'r'] =
      ['d', 'a', 't', 'a', '\x2d', 'f', 'o', 'o', '\x2d', 'b', 'a', 'r'] := by
  refine ⟨fun name => ?_, by decide⟩
  rw [to_snake_case, snakeLoop_eq_encodeImageSpec]

/-- C8: `is_ascii_lowercase` holds exactly on the inclusive code-point range
97..119 (`'a'..='w'`) — in particular it is false on `'x'`, `'y'`, `'z'` —
while `is_ascii_uppercase` holds exactly on 65..90 (`'A'..='Z'`). -/
theorem claim_C8_classifiers :
    (∀ c : Char, is_ascii_lowercase c = true ↔ 97 ≤ c.toNat ∧ c.toNat ≤ 119) ∧
    is_ascii_lowercase 'x' = false ∧
    is_ascii_lowercase 'y' = false ∧
    is_ascii_lowercase 'z' = false ∧
    (∀ c : Char, is_ascii_uppercase c = true ↔ 65 ≤ c.toNat ∧ c.toNat ≤ 90) :=
  ⟨is_ascii_lowercase_iff, by decide, by decide, by decide, is_ascii_uppercase_iff⟩

/-- C9: whenever the decoder accepts an attribute name and returns a
property name, encoding that property name reproduces the attribute name
exactly. -/
theorem claim_C9_decode_then_encode (n p : List Char)
    (h : to_camel_case n = some p) : to_snake_case p = n := by
  rw [to_camel_case] at h
  by_cases hp : dataPrefixChars.isPrefixOf n = true
  · rw [if_pos hp] at h
    by_cases hu : (n.drop 5).any is_ascii_uppercase = true
    · rw [if_pos hu] at h
      exact absurd h (by simp)
    · rw [if_neg hu] at h
      have hp2 : p = camelLoop (n.drop 5) := by
        injection h with h2
        exact h2.symm
      subst hp2
      rw [to_snake_case, snakeLoop_camelLoop_id _ (Bool.eq_false_iff.mpr hu)]
      obtain ⟨t, ht⟩ := List.isPrefixOf_iff_prefix.mp hp
      rw [← ht]
      have hdrop : (dataPrefixChars ++ t).drop 5 = t := List.drop_left dataPrefixChars t
      rw [hdrop]
  · rw [if_neg hp] at h
    exact absurd h (by simp)

/-- Witness for C9 at the concrete attribute name `"data-foo-bar"`. -/
theorem claim_C9_witness :
    to_snake_case ['f', 'o', 'o', 'B', 'a', 'r'] =
      ['d', 'a', 't', 'a', '\x2d', 'f', 'o', 'o', '\x2d', 'b', 'a', 'r'] :=
  claim_C9_decode_then_encode
    ['d', 'a', 't', 'a', '\x2d', 'f', 'o', 'o', '\x2d', 'b', 'a', 'r']
    ['f', 'o', 'o', 'B', 'a', 'r'] (by decide)

/-- C10: for every string, decoding the encoded form succeeds: the encoded
form starts with the prefix `"data-"` and its remainder contains no ASCII
uppercase letter, so it lies inside the decoder's accepted surface. -/
theorem claim_C10_decode_encode_isSome (s : List Char) :
    dataPrefixChars.isPrefixOf (to_snake_case s) = true ∧
    ((to_snake_case s).drop 5).any is_ascii_uppercase = false ∧
    ∃ t, to_camel_case (to_snake_case s) = some t := by
  refine ⟨List.isPrefixOf_iff_prefix.mpr ?_, ?_, camelLoop (snakeLoop s), decode_encode_eq s⟩
  · rw [to_snake_case]
    exact List.prefix_append _ _
  · rw [to_snake_case]
    have hdrop : (dataPrefixChars ++ snakeLoop s).drop 5 = snakeLoop s :=
      List.drop_left dataPrefixChars (snakeLoop s)
    rw [hdrop]
    exact snakeLoop_no_upper s

end Servo
